import Mathlib

/-!
Shallow embedding of the command-protocol and request-dispatch layer of the
`stream` repository (file `stream/handler.go`), together with theorems
settling the behavioural claims about its parser, typed request builders and
dispatcher.

Go strings are modelled as Lean `String`s (lists of characters); `strings.Split`
and `strings.SplitN` with separator `" "` are modelled by explicit character-list
recursions; `strconv.Atoi` is modelled including its 64-bit range check; errors
are modelled by an inductive `Err` type whose constructors correspond to the
distinguishable error values of the Go code.
-/

deriving instance DecidableEq for Except

namespace StreamHandler

/-- Modelled from the spec: the command-verb constants `client.CmdPush`,
`client.CmdPull`, `client.CmdGet`, `client.CmdStatus`, `client.CmdPrepare`,
`client.CmdAccept`, `client.CmdSet` live in the `client` package, which is not
part of the available source; their string values are the fixed wire verbs of
the protocol (`push`, `pull`, `get`, `status`, `prepare`, `accept`, `set`). -/
def CmdPush : String := "push"

/-- Modelled from the spec: see `CmdPush`. -/
def CmdPull : String := "pull"

/-- Modelled from the spec: see `CmdPush`. -/
def CmdGet : String := "get"

/-- Modelled from the spec: see `CmdPush`. -/
def CmdStatus : String := "status"

/-- Modelled from the spec: see `CmdPush`. -/
def CmdPrepare : String := "prepare"

/-- Modelled from the spec: see `CmdPush`. -/
def CmdAccept : String := "accept"

/-- Modelled from the spec: see `CmdPush`. -/
def CmdSet : String := "set"

/-- The failure kinds of `strconv`'s `NumError`: `ErrSyntax` (here `invalid`)
and `ErrRange` (here `outOfRange`). -/
inductive NumErrKind where
  | invalid
  | outOfRange
deriving DecidableEq

/-- The error values the handler layer can return: `ErrUnknownCmd`
(`"unknown cmd"`), `ErrIncorrectCmd` (`"incorrect cmd"`), and a
`strconv.NumError` carrying the offending numeral and the failure kind,
as returned by `strconv.Atoi` and propagated unchanged by the builders. -/
inductive Err where
  | unknownCmd
  | incorrectCmd
  | numError (num : String) (kind : NumErrKind)
deriving DecidableEq

/-- Model of Go `strings.Split(s, " ")` on character lists: splits around every
single occurrence of the space character; the empty list yields `[[]]`. -/
def splitChars : List Char → List (List Char)
  | [] => [[]]
  | c :: cs =>
    if c = ' ' then [] :: splitChars cs
    else
      match splitChars cs with
      | [] => [[c]]
      | a :: as => (c :: a) :: as

/-- Go `strings.Split(s, " ")`. -/
def goSplit (s : String) : List String :=
  (splitChars s.data).map fun l => String.mk l

/-- Helper for Go `strings.SplitN(s, " ", 2)`: the part before the first space,
and — when a space occurs — the part after it. -/
def splitN2Chars : List Char → List Char × Option (List Char)
  | [] => ([], none)
  | c :: cs =>
    if c = ' ' then ([], some cs)
    else
      let p := splitN2Chars cs
      (c :: p.1, p.2)

/-- Go `strings.SplitN(s, " ", 2)`: one part when no space occurs in `s`
(including `s = ""`), otherwise exactly two parts split at the first space. -/
def goSplitN2 (s : String) : List String :=
  match splitN2Chars s.data with
  | (a, none) => [String.mk a]
  | (a, some b) => [String.mk a, String.mk b]

/-- The digit-accumulation loop of Go `strconv.ParseUint(s, 10, 64)`:
a non-digit character fails with `ErrSyntax`; exceeding the `uint64`
cutoff fails with `ErrRange`. `1844674407370955162 = maxUint64/10 + 1`
and `18446744073709551615 = maxUint64`. -/
def parseUintLoop : List Char → Nat → Except NumErrKind Nat
  | [], n => .ok n
  | c :: cs, n =>
    if c < '0' ∨ '9' < c then .error .invalid
    else if 1844674407370955162 ≤ n then .error .outOfRange
    else
      let n1 := n * 10 + (c.toNat - 48)
      if 18446744073709551615 < n1 then .error .outOfRange
      else parseUintLoop cs n1

/-- Go `strconv.ParseUint(s, 10, 64)` restricted to what `ParseInt` needs:
the empty string fails with `ErrSyntax`, otherwise the digit loop runs. -/
def parseUint64 (cs : List Char) : Except NumErrKind Nat :=
  match cs with
  | [] => .error .invalid
  | _ => parseUintLoop cs 0

/-- The leading-sign handling of Go `strconv.ParseInt`: whether the numeral is
negative, and the digit characters after the optional sign. -/
def splitSign : List Char → Bool × List Char
  | '+' :: r => (false, r)
  | '-' :: r => (true, r)
  | r => (false, r)

/-- Go `strconv.Atoi(s)` (= `ParseInt(s, 10, 0)` with 64-bit `int`): strips an
optional leading sign, parses the decimal digits, and checks the signed 64-bit
range (`cutoff = 1 << 63 = 9223372036854775808`). Failures carry the original
string, as `NumError.Num` does. -/
def atoi (s : String) : Except Err Int :=
  match s.data with
  | [] => .error (.numError s .invalid)
  | cs =>
    match parseUint64 (splitSign cs).2 with
    | .error k => .error (.numError s k)
    | .ok un =>
      if (splitSign cs).1 = false ∧ 9223372036854775808 ≤ un then
        .error (.numError s .outOfRange)
      else if (splitSign cs).1 = true ∧ 9223372036854775808 < un then
        .error (.numError s .outOfRange)
      else .ok (if (splitSign cs).1 then -(un : Int) else (un : Int))

/-- The base `Request` of `handler.go`: the resolved command and the ordered
argument strings. (The Go struct also carries a `context.Context`, which no
parsing, building or dispatch decision depends on; it is omitted.) -/
structure Request where
  cmd : String
  args : List String
deriving DecidableEq

/-- The fixed command set `availableCmds` of `handler.go`. -/
def availableCmds : List String :=
  [CmdPush, CmdPull, CmdGet, CmdStatus, CmdPrepare, CmdAccept, CmdSet]

/-- `parseRawMessage` of `handler.go`: `SplitN` the message on the first space,
take the head as the command and the rest (or `""`) as the raw arguments, fail
with `ErrIncorrectCmd` when the split is empty (which `strings.SplitN` never
produces) or when the command is not in `availableCmds`, and `Split` the raw
arguments on every space. -/
def parseRawMessage (message : String) : Except Err Request :=
  let parsed := goSplitN2 message
  match parsed with
  | [] => .error .incorrectCmd
  | cmd :: rest =>
    let rawArgs : String :=
      match rest with
      | [r] => r
      | _ => ""
    if availableCmds.contains cmd then
      .ok { cmd := cmd, args := goSplit rawArgs }
    else .error .incorrectCmd

/-- `GetRequest` of `handler.go`: the base request plus the decoded index. -/
structure GetRequest where
  request : Request
  n : Int
deriving DecidableEq

/-- `NewGetRequest` of `handler.go`: reject a foreign command and an empty
argument list with `ErrIncorrectCmd`, then decode `args[0]` with `Atoi`,
propagating its error unchanged. -/
def NewGetRequest (request : Request) : Except Err GetRequest :=
  if request.cmd ≠ CmdGet then .error .incorrectCmd
  else
    match request.args with
    | [] => .error .incorrectCmd
    | a0 :: _ =>
      match atoi a0 with
      | .error e => .error e
      | .ok n => .ok { request := request, n := n }

/-- `PullRequest` of `handler.go`. -/
structure PullRequest where
  request : Request
  n : Int
deriving DecidableEq

/-- `NewPullRequest` of `handler.go`: same shape as `NewGetRequest` with the
`pull` command. -/
def NewPullRequest (request : Request) : Except Err PullRequest :=
  if request.cmd ≠ CmdPull then .error .incorrectCmd
  else
    match request.args with
    | [] => .error .incorrectCmd
    | a0 :: _ =>
      match atoi a0 with
      | .error e => .error e
      | .ok n => .ok { request := request, n := n }

/-- `PushRequest` of `handler.go`: the base request plus the raw value. -/
structure PushRequest where
  request : Request
  v : String
deriving DecidableEq

/-- `NewPushRequest` of `handler.go`: reject a foreign command and an empty
argument list with `ErrIncorrectCmd`, else take `v = args[0]` verbatim. -/
def NewPushRequest (request : Request) : Except Err PushRequest :=
  if request.cmd ≠ CmdPush then .error .incorrectCmd
  else
    match request.args with
    | [] => .error .incorrectCmd
    | a0 :: _ => .ok { request := request, v := a0 }

/-- `PrepareRequest` of `handler.go`. -/
structure PrepareRequest where
  request : Request
  n : Int
deriving DecidableEq

/-- `NewPrepareRequest` of `handler.go`: same shape as `NewGetRequest` with the
`prepare` command. -/
def NewPrepareRequest (request : Request) : Except Err PrepareRequest :=
  if request.cmd ≠ CmdPrepare then .error .incorrectCmd
  else
    match request.args with
    | [] => .error .incorrectCmd
    | a0 :: _ =>
      match atoi a0 with
      | .error e => .error e
      | .ok n => .ok { request := request, n := n }

/-- `AcceptRequest` of `handler.go`: proposal number, identity and value. -/
structure AcceptRequest where
  request : Request
  n : Int
  id : String
  v : String
deriving DecidableEq

/-- `NewAcceptRequest` of `handler.go`: reject a foreign command and any
argument list whose length is not exactly 3 with `ErrIncorrectCmd`, decode
`n = Atoi(args[0])` propagating its error, and take `id = args[1]`,
`v = args[2]`. -/
def NewAcceptRequest (request : Request) : Except Err AcceptRequest :=
  if request.cmd ≠ CmdAccept then .error .incorrectCmd
  else if request.args.length ≠ 3 then .error .incorrectCmd
  else
    match atoi (request.args.headD "") with
    | .error e => .error e
    | .ok n =>
      .ok { request := request, n := n, id := request.args.getD 1 "",
            v := request.args.getD 2 "" }

/-- `SetRequest` of `handler.go`. -/
structure SetRequest where
  request : Request
  n : Int
  id : String
  v : String
deriving DecidableEq

/-- `NewSetRequest` of `handler.go`: same shape as `NewAcceptRequest` with the
`set` command. -/
def NewSetRequest (request : Request) : Except Err SetRequest :=
  if request.cmd ≠ CmdSet then .error .incorrectCmd
  else if request.args.length ≠ 3 then .error .incorrectCmd
  else
    match atoi (request.args.headD "") with
    | .error e => .error e
    | .ok n =>
      .ok { request := request, n := n, id := request.args.getD 1 "",
            v := request.args.getD 2 "" }

/-- One invocation of a semantic operation by the dispatcher: which of the
seven handler methods `Process` calls, with the typed request it passes. -/
inductive Op where
  | push (r : PushRequest)
  | get (r : GetRequest)
  | pull (r : PullRequest)
  | status
  | set (r : SetRequest)
  | prepare (r : PrepareRequest)
  | accept (r : AcceptRequest)
deriving DecidableEq

/-- The build step of `Process`'s `switch`, factored out: for each command the
corresponding typed-request builder (none for `status`), with the `default`
branch returning `ErrUnknownCmd`. -/
def buildOp (req : Request) : Except Err Op :=
  if req.cmd = CmdPush then (NewPushRequest req).map Op.push
  else if req.cmd = CmdGet then (NewGetRequest req).map Op.get
  else if req.cmd = CmdPull then (NewPullRequest req).map Op.pull
  else if req.cmd = CmdStatus then .ok Op.status
  else if req.cmd = CmdSet then (NewSetRequest req).map Op.set
  else if req.cmd = CmdPrepare then (NewPrepareRequest req).map Op.prepare
  else if req.cmd = CmdAccept then (NewAcceptRequest req).map Op.accept
  else .error .unknownCmd

/-- `Process` of `handler.go`, instrumented with the sequence of semantic
operations it invokes. The bodies of the seven handler methods are external to
the parsing/dispatch layer; `handler` stands for whatever result the invoked
method returns. Each `switch` case of the source is written out: parse the raw
message, build the typed request for the parsed command (returning the builder
error without any invocation when it fails), invoke the method for that one
command, and return `ErrUnknownCmd` in the `default` branch. -/
def ProcessTr (handler : Op → Except Err Unit) (message : String) :
    Except Err Unit × List Op :=
  match parseRawMessage message with
  | .error e => (.error e, [])
  | .ok parsed =>
    if parsed.cmd = CmdPush then
      match NewPushRequest parsed with
      | .error e => (.error e, [])
      | .ok r => (handler (Op.push r), [Op.push r])
    else if parsed.cmd = CmdGet then
      match NewGetRequest parsed with
      | .error e => (.error e, [])
      | .ok r => (handler (Op.get r), [Op.get r])
    else if parsed.cmd = CmdPull then
      match NewPullRequest parsed with
      | .error e => (.error e, [])
      | .ok r => (handler (Op.pull r), [Op.pull r])
    else if parsed.cmd = CmdStatus then
      (handler Op.status, [Op.status])
    else if parsed.cmd = CmdSet then
      match NewSetRequest parsed with
      | .error e => (.error e, [])
      | .ok r => (handler (Op.set r), [Op.set r])
    else if parsed.cmd = CmdPrepare then
      match NewPrepareRequest parsed with
      | .error e => (.error e, [])
      | .ok r => (handler (Op.prepare r), [Op.prepare r])
    else if parsed.cmd = CmdAccept then
      match NewAcceptRequest parsed with
      | .error e => (.error e, [])
      | .ok r => (handler (Op.accept r), [Op.accept r])
    else (.error .unknownCmd, [])

/-- Formalisation of C3's own wording, for comparison with `parseRawMessage`:
the first-boundary split at the first WHITESPACE character (not only the space
character). -/
def splitN2WhiteChars : List Char → List Char × Option (List Char)
  | [] => ([], none)
  | c :: cs =>
    if c.isWhitespace then ([], some cs)
    else
      let p := splitN2WhiteChars cs
      (c :: p.1, p.2)

/-- Formalisation of C3's own wording: splitting a remainder at every
whitespace character. -/
def splitWhiteChars : List Char → List (List Char)
  | [] => [[]]
  | c :: cs =>
    if c.isWhitespace then [] :: splitWhiteChars cs
    else
      match splitWhiteChars cs with
      | [] => [[c]]
      | a :: as => (c :: a) :: as

/-- Formalisation of C3's own wording: parse by splitting the raw line at the
first whitespace boundary into a command token and remainder, and the
remainder at whitespace into the argument sequence, validating the command
against the fixed set. Compared against `parseRawMessage`. -/
def parseSpecWhitespace (message : String) : Except Err Request :=
  let p := splitN2WhiteChars message.data
  let rawArgs : List Char :=
    match p.2 with
    | some r => r
    | none => []
  if availableCmds.contains (String.mk p.1) then
    .ok { cmd := String.mk p.1,
          args := (splitWhiteChars rawArgs).map fun l => String.mk l }
  else .error .incorrectCmd

lemma dropWhile_length_le (p : Char → Bool) (l : List Char) :
    (l.dropWhile p).length ≤ l.length := by
  induction l with
  | nil => simp
  | cons c cs ih =>
    rw [List.dropWhile_cons]
    by_cases h : p c
    · simp only [h, if_true]
      exact Nat.le_succ_of_le ih
    · simp [h]

/-- The amended wording of C3, as an independent formulation: tokens are
maximal runs of non-space characters; the list is split at every single
occurrence of the space character, via `takeWhile`/`dropWhile`. -/
def splitSpaceSpec (l : List Char) : List (List Char) :=
  if _hne : (l.dropWhile fun c => c != ' ') = [] then
    [l.takeWhile fun c => c != ' ']
  else
    (l.takeWhile fun c => c != ' ') ::
      splitSpaceSpec (l.dropWhile fun c => c != ' ').tail
termination_by l.length
decreasing_by
  have hle := dropWhile_length_le (fun c => c != ' ') l
  have hpos : 0 < (l.dropWhile fun c => c != ' ').length :=
    List.length_pos.mpr _hne
  rw [List.length_tail]
  omega

/-- The amended wording of C3: split the raw line at the first SPACE character
into a command token and remainder, split the remainder at every space
character into the argument sequence, and validate the command against the
fixed set. -/
def parseSpecSpace (message : String) : Except Err Request :=
  let cmdChars := message.data.takeWhile fun c => c != ' '
  let remainder : List Char :=
    match message.data.dropWhile (fun c => c != ' ') with
    | [] => []
    | _ :: t => t
  if availableCmds.contains (String.mk cmdChars) then
    .ok { cmd := String.mk cmdChars,
          args := (splitSpaceSpec remainder).map fun l => String.mk l }
  else .error .incorrectCmd

lemma splitChars_ne_nil (l : List Char) : splitChars l ≠ [] := by
  cases l with
  | nil => simp [splitChars]
  | cons c cs =>
    rw [splitChars]
    by_cases h : c = ' '
    · simp [h]
    · simp only [h, if_false]
      cases splitChars cs <;> simp

lemma splitSpaceSpec_nil : splitSpaceSpec [] = [[]] := by
  rw [splitSpaceSpec.eq_def]
  simp

lemma splitSpaceSpec_cons_space (cs : List Char) :
    splitSpaceSpec (' ' :: cs) = [] :: splitSpaceSpec cs := by
  rw [splitSpaceSpec.eq_def]
  simp [List.takeWhile_cons, List.dropWhile_cons]

lemma splitSpaceSpec_cons_nonspace (c : Char) (cs : List Char) (h : ¬c = ' ') :
    splitSpaceSpec (c :: cs) =
      match splitSpaceSpec cs with
      | [] => [[c]]
      | a :: as => (c :: a) :: as := by
  have hb : (c != ' ') = true := by simp [h]
  conv_rhs => rw [splitSpaceSpec.eq_def]
  rw [splitSpaceSpec.eq_def]
  by_cases hcs : (cs.dropWhile fun c => c != ' ') = []
  · simp [List.dropWhile_cons, List.takeWhile_cons, hb, hcs]
  · simp [List.dropWhile_cons, List.takeWhile_cons, hb, hcs]

/-- The Go space-splitting of `strings.Split(·, " ")` agrees with the
`takeWhile`/`dropWhile` formulation of splitting at every space character. -/
lemma splitChars_eq_spec (l : List Char) : splitChars l = splitSpaceSpec l := by
  induction l with
  | nil => rw [splitChars, splitSpaceSpec_nil]
  | cons c cs ih =>
    by_cases h : c = ' '
    · subst h
      rw [splitChars, if_pos rfl, splitSpaceSpec_cons_space, ih]
    · rw [splitChars, if_neg h, splitSpaceSpec_cons_nonspace c cs h, ih]

/-- The Go first-space split of `strings.SplitN(·, " ", 2)` agrees with the
`takeWhile`/`dropWhile` formulation. -/
lemma splitN2Chars_eq (l : List Char) :
    splitN2Chars l =
      (l.takeWhile (fun c => c != ' '),
       match l.dropWhile (fun c => c != ' ') with
       | [] => none
       | _ :: t => some t) := by
  induction l with
  | nil => simp [splitN2Chars]
  | cons c cs ih =>
    by_cases h : c = ' '
    · subst h
      simp [splitN2Chars, List.takeWhile_cons, List.dropWhile_cons]
    · simp only [splitN2Chars, h, if_false, ih, List.takeWhile_cons,
        List.dropWhile_cons, bne_iff_ne, ne_eq, not_false_eq_true, decide_True,
        if_true]

/-- `parseRawMessage` is exactly the amended first-space/every-space split. -/
lemma parseRawMessage_eq_spec (msg : String) :
    parseRawMessage msg = parseSpecSpace msg := by
  rw [parseRawMessage, parseSpecSpace, goSplitN2, splitN2Chars_eq]
  cases hd : msg.data.dropWhile (fun c => c != ' ') with
  | nil =>
    simp only [goSplit]
    rw [splitChars_eq_spec]
  | cons x t =>
    simp only [goSplit]
    rw [splitChars_eq_spec]

/-- A space-free token is returned whole by the space split. -/
lemma splitChars_spacefree (b : List Char) (hb : ∀ c ∈ b, c ≠ ' ') :
    splitChars b = [b] := by
  induction b with
  | nil => rw [splitChars]
  | cons c cs ih =>
    have hc : ¬c = ' ' := hb c (List.mem_cons_self c cs)
    rw [splitChars, if_neg hc, ih fun d hd => hb d (List.mem_cons_of_mem c hd)]

/-- A run of `k` spaces followed by a space-free token splits into `k` empty
tokens followed by the token. -/
lemma splitChars_spaces_token (k : Nat) (b : List Char)
    (hb : ∀ c ∈ b, c ≠ ' ') :
    splitChars (List.replicate k ' ' ++ b) = List.replicate k [] ++ [b] := by
  induction k with
  | zero => simpa using splitChars_spacefree b hb
  | succ k ih =>
    rw [List.replicate_succ, List.cons_append, splitChars, if_pos rfl, ih,
      List.replicate_succ, List.cons_append]

/-- Between two space-free tokens separated by `k ≥ 1` spaces, the space split
produces exactly `k - 1` empty tokens. -/
lemma splitChars_token_spaces_token (a b : List Char) (k : Nat)
    (ha : ∀ c ∈ a, c ≠ ' ') (hb : ∀ c ∈ b, c ≠ ' ') (hk : 1 ≤ k) :
    splitChars (a ++ List.replicate k ' ' ++ b) =
      a :: (List.replicate (k - 1) [] ++ [b]) := by
  induction a with
  | nil =>
    obtain ⟨k', rfl⟩ : ∃ k', k = k' + 1 := ⟨k - 1, by omega⟩
    simp only [List.nil_append]
    rw [List.replicate_succ, List.cons_append, splitChars, if_pos rfl,
      splitChars_spaces_token k' b hb]
    simp
  | cons c a' ih =>
    have hc : ¬c = ' ' := ha c (List.mem_cons_self c a')
    rw [List.cons_append, List.cons_append, splitChars, if_neg hc,
      ih fun d hd => ha d (List.mem_cons_of_mem c hd)]

/-- `Atoi` failures are always `NumError`s carrying the offending string:
in particular they are never `ErrIncorrectCmd` or `ErrUnknownCmd`. -/
lemma atoi_error_shape (s : String) (e : Err) (h : atoi s = .error e) :
    ∃ k, e = Err.numError s k := by
  rw [atoi] at h
  split at h
  · exact ⟨.invalid, by cases h; rfl⟩
  · split at h
    · exact ⟨_, by cases h; rfl⟩
    · split at h
      · exact ⟨.outOfRange, by cases h; rfl⟩
      · split at h
        · exact ⟨.outOfRange, by cases h; rfl⟩
        · cases h

/-- `Process` after a successful parse: the result is determined by the build
step for the parsed command — the builder's error with no invocation, or one
invocation of the built operation. -/
lemma processTr_after_parse (handler : Op → Except Err Unit) (msg : String)
    (req : Request) (hreq : parseRawMessage msg = .ok req) :
    ProcessTr handler msg =
      match buildOp req with
      | .error e => (.error e, [])
      | .ok op => (handler op, [op]) := by
  rw [ProcessTr, hreq, buildOp]
  split_ifs with h1 h2 h3 h4 h5 h6 h7 <;>
    [cases hp : NewPushRequest req; cases hp : NewGetRequest req;
     cases hp : NewPullRequest req; skip; cases hp : NewSetRequest req;
     cases hp : NewPrepareRequest req; cases hp : NewAcceptRequest req;
     skip] <;>
  simp_all [Except.map, CmdPush, CmdGet, CmdPull, CmdStatus, CmdSet,
    CmdPrepare, CmdAccept]

/-- A successful parse only ever produces commands of the fixed set, with the
arguments given by the space split of the remainder. -/
lemma parseRawMessage_ok (msg : String) (req : Request)
    (h : parseRawMessage msg = .ok req) :
    availableCmds.contains req.cmd = true ∧ 1 ≤ req.args.length := by
  rw [parseRawMessage] at h
  rcases hp : goSplitN2 msg with _ | ⟨cmd, rest⟩ <;> rw [hp] at h
  · cases h
  · dsimp only at h
    by_cases hc : availableCmds.contains cmd
    · rw [if_pos hc] at h
      cases h
      refine ⟨hc, ?_⟩
      have := splitChars_ne_nil (match rest with
        | [r] => r
        | _ => "").data
      simp only [goSplit, List.length_map]
      cases hsp : splitChars (match rest with
        | [r] => r
        | _ => "").data with
      | nil => exact absurd hsp this
      | cons a as => simp
    · rw [if_neg hc] at h
      cases h

/-- C1: evaluation of the code at the failing input. Parsing the empty message
fails with the "incorrect command" error, as claimed; but parsing a message
whose leading token (`foo`) is not in the fixed command set also fails with
the "incorrect command" error — not the distinct "unknown command" error the
claim requires — and `Process` returns it without invoking any operation, so
the two failure kinds are not distinguishable. -/
theorem c1_unknown_token_error_kind :
    parseRawMessage "" = .error .incorrectCmd
  ∧ parseRawMessage "foo" = .error .incorrectCmd
  ∧ Err.incorrectCmd ≠ Err.unknownCmd
  ∧ (∀ handler, ProcessTr handler "foo" = (.error .incorrectCmd, [])) := by
  refine ⟨by decide, by decide, by decide, fun handler => ?_⟩
  rw [ProcessTr, show parseRawMessage "foo" = .error .incorrectCmd from by
    decide]

/-- C2: for every inbound message and every behaviour of the collaborators,
when parsing fails `Process` returns the parse error having invoked no
semantic operation; when parsing succeeds and the build step for the parsed
command fails, `Process` returns the build error having invoked no semantic
operation; and when both succeed, `Process` invokes exactly the one built
operation and returns its result. -/
theorem c2_dispatch_exactly_one (handler : Op → Except Err Unit)
    (msg : String) :
    (∀ e, parseRawMessage msg = .error e →
        ProcessTr handler msg = (.error e, []))
  ∧ (∀ req, parseRawMessage msg = .ok req →
      (∀ e, buildOp req = .error e → ProcessTr handler msg = (.error e, []))
    ∧ (∀ op, buildOp req = .ok op →
        ProcessTr handler msg = (handler op, [op]))) := by
  refine ⟨fun e he => ?_, fun req hreq => ⟨fun e he => ?_, fun op hop => ?_⟩⟩
  · rw [ProcessTr, he]
  · rw [processTr_after_parse handler msg req hreq, he]
  · rw [processTr_after_parse handler msg req hreq, hop]

/-- Witness for C2 at the concrete message `"push v"`: parse yields the `push`
request, build yields the `Push` operation with value `"v"`, and `Process`
invokes exactly that operation. -/
theorem c2_dispatch_exactly_one_witness :
    ProcessTr (fun _ => .ok ()) "push v" =
      (.ok (), [Op.push ⟨⟨"push", ["v"]⟩, "v"⟩]) :=
  ((c2_dispatch_exactly_one (fun _ => .ok ()) "push v").2 ⟨"push", ["v"]⟩
    (by decide)).2 (Op.push ⟨⟨"push", ["v"]⟩, "v"⟩) (by decide)

/-- C3, counterexample: the parser does not split at the first whitespace
boundary. On the line `"push\tval1"` the first whitespace character is the
tab; splitting there (the claim's reading, `parseSpecWhitespace`) yields the
valid command `push` with argument `val1`, but the code only splits at space
characters, treats `"push\tval1"` as the whole leading token, and fails. -/
theorem c3_whitespace_counterexample :
    parseRawMessage "push\tval1" = .error .incorrectCmd
  ∧ parseSpecWhitespace "push\tval1" = .ok ⟨"push", ["val1"]⟩
  ∧ parseRawMessage "push\tval1" ≠ parseSpecWhitespace "push\tval1" := by
  refine ⟨by decide, by decide, by decide⟩

/-- C3, amended: parsing splits the raw line at the first SPACE character into
a command token and a remainder, and splits the remainder at every space
character into an ordered argument sequence (the `takeWhile`/`dropWhile`
formulation `parseSpecSpace`); in particular parsing `"push val1"` yields
command `push` with argument sequence `["val1"]`. -/
theorem c3_space_split :
    (∀ msg, parseRawMessage msg = parseSpecSpace msg)
  ∧ parseRawMessage "push val1" = .ok ⟨"push", ["val1"]⟩ := by
  exact ⟨parseRawMessage_eq_spec, by decide⟩

/-- C4: for every valid command token, the line consisting of the bare token
(empty remainder, no space), and likewise the token followed by a single
space, parses to that command with exactly one empty-string argument. -/
theorem c4_empty_remainder (cmd : String) (h : cmd ∈ availableCmds) :
    parseRawMessage cmd = .ok ⟨cmd, [""]⟩
  ∧ parseRawMessage (cmd ++ " ") = .ok ⟨cmd, [""]⟩ := by
  simp only [availableCmds, CmdPush, CmdPull, CmdGet, CmdStatus, CmdPrepare,
    CmdAccept, CmdSet, List.mem_cons, List.mem_singleton,
    List.not_mem_nil, or_false] at h
  rcases h with rfl | rfl | rfl | rfl | rfl | rfl | rfl <;>
    exact ⟨by decide, by decide⟩

/-- Witness for C4 at the concrete command `status`: the bare line `"status"`
parses to the `status` command with the single empty-string argument. -/
theorem c4_empty_remainder_witness :
    parseRawMessage "status" = .ok ⟨"status", [""]⟩
  ∧ parseRawMessage "status " = .ok ⟨"status", [""]⟩ :=
  c4_empty_remainder "status" (by decide)

/-- C5: each typed request builder fails with the "incorrect command" error
whenever the base request's embedded command differs from the builder's own
command, and every successfully constructed typed request embeds exactly the
builder's command. -/
theorem c5_builder_command_invariant (req : Request) :
    (req.cmd ≠ CmdPush → NewPushRequest req = .error .incorrectCmd)
  ∧ (∀ r, NewPushRequest req = .ok r → r.request.cmd = CmdPush)
  ∧ (req.cmd ≠ CmdGet → NewGetRequest req = .error .incorrectCmd)
  ∧ (∀ r, NewGetRequest req = .ok r → r.request.cmd = CmdGet)
  ∧ (req.cmd ≠ CmdPull → NewPullRequest req = .error .incorrectCmd)
  ∧ (∀ r, NewPullRequest req = .ok r → r.request.cmd = CmdPull)
  ∧ (req.cmd ≠ CmdSet → NewSetRequest req = .error .incorrectCmd)
  ∧ (∀ r, NewSetRequest req = .ok r → r.request.cmd = CmdSet)
  ∧ (req.cmd ≠ CmdPrepare → NewPrepareRequest req = .error .incorrectCmd)
  ∧ (∀ r, NewPrepareRequest req = .ok r → r.request.cmd = CmdPrepare)
  ∧ (req.cmd ≠ CmdAccept → NewAcceptRequest req = .error .incorrectCmd)
  ∧ (∀ r, NewAcceptRequest req = .ok r → r.request.cmd = CmdAccept) := by
  refine ⟨fun h => by simp [NewPushRequest, h], fun r hr => ?_,
    fun h => by simp [NewGetRequest, h], fun r hr => ?_,
    fun h => by simp [NewPullRequest, h], fun r hr => ?_,
    fun h => by simp [NewSetRequest, h], fun r hr => ?_,
    fun h => by simp [NewPrepareRequest, h], fun r hr => ?_,
    fun h => by simp [NewAcceptRequest, h], fun r hr => ?_⟩
  · by_cases h : req.cmd = CmdPush
    · rw [NewPushRequest] at hr
      simp only [h, ne_eq, not_true_eq_false, if_false] at hr
      split at hr
      · cases hr
      · cases hr
        exact h
    · simp [NewPushRequest, h] at hr
  · by_cases h : req.cmd = CmdGet
    · rw [NewGetRequest] at hr
      simp only [h, ne_eq, not_true_eq_false, if_false] at hr
      split at hr
      · cases hr
      · split at hr
        · cases hr
        · cases hr
          exact h
    · simp [NewGetRequest, h] at hr
  · by_cases h : req.cmd = CmdPull
    · rw [NewPullRequest] at hr
      simp only [h, ne_eq, not_true_eq_false, if_false] at hr
      split at hr
      · cases hr
      · split at hr
        · cases hr
        · cases hr
          exact h
    · simp [NewPullRequest, h] at hr
  · by_cases h : req.cmd = CmdSet
    · rw [NewSetRequest] at hr
      simp only [h, ne_eq, not_true_eq_false, if_false] at hr
      split at hr
      · cases hr
      · split at hr
        · cases hr
        · cases hr
          exact h
    · simp [NewSetRequest, h] at hr
  · by_cases h : req.cmd = CmdPrepare
    · rw [NewPrepareRequest] at hr
      simp only [h, ne_eq, not_true_eq_false, if_false] at hr
      split at hr
      · cases hr
      · split at hr
        · cases hr
        · cases hr
          exact h
    · simp [NewPrepareRequest, h] at hr
  · by_cases h : req.cmd = CmdAccept
    · rw [NewAcceptRequest] at hr
      simp only [h, ne_eq, not_true_eq_false, if_false] at hr
      split at hr
      · cases hr
      · split at hr
        · cases hr
        · cases hr
          exact h
    · simp [NewAcceptRequest, h] at hr

/-- Witness for C5 at the concrete request `⟨get, [""]⟩` handed to the `push`
builder: the embedded command differs, so construction fails with the
"incorrect command" error. -/
theorem c5_builder_command_invariant_witness :
    NewPushRequest ⟨"get", [""]⟩ = .error .incorrectCmd :=
  (c5_builder_command_invariant ⟨"get", [""]⟩).1 (by decide)

/-- C6: for every base request whose argument sequence does not have exactly
three elements, building an `Accept` or a `Set` request fails with the
"incorrect command" error (also for a foreign embedded command, whose check
yields the same error); with exactly three arguments whose first decodes as an
integer and the matching embedded command, construction succeeds with
`n = integer(args[0])`, `id = args[1]`, `v = args[2]`. -/
theorem c6_three_arg_arity (req : Request) :
    (req.args.length ≠ 3 →
        NewAcceptRequest req = .error .incorrectCmd
      ∧ NewSetRequest req = .error .incorrectCmd)
  ∧ (∀ a0 a1 a2 n, req.args = [a0, a1, a2] → atoi a0 = .ok n →
      (req.cmd = CmdAccept →
        NewAcceptRequest req = .ok ⟨req, n, a1, a2⟩)
    ∧ (req.cmd = CmdSet →
        NewSetRequest req = .ok ⟨req, n, a1, a2⟩)) := by
  constructor
  · intro hlen
    constructor
    · by_cases h : req.cmd = CmdAccept
      · simp [NewAcceptRequest, h, hlen]
      · simp [NewAcceptRequest, h]
    · by_cases h : req.cmd = CmdSet
      · simp [NewSetRequest, h, hlen]
      · simp [NewSetRequest, h]
  · intro a0 a1 a2 n hargs hn
    constructor
    · intro hcmd
      simp [NewAcceptRequest, hcmd, hargs, hn]
    · intro hcmd
      simp [NewSetRequest, hcmd, hargs, hn]

/-- Witness for C6 at the concrete request `⟨accept, ["1", "x", "y"]⟩`:
construction succeeds with `n = 1`, `id = "x"`, `v = "y"`. -/
theorem c6_three_arg_arity_witness :
    NewAcceptRequest ⟨"accept", ["1", "x", "y"]⟩ =
      .ok ⟨⟨"accept", ["1", "x", "y"]⟩, 1, "x", "y"⟩ :=
  ((c6_three_arg_arity ⟨"accept", ["1", "x", "y"]⟩).2 "1" "x" "y" 1
    (by decide) (by decide)).1 (by decide)

/-- C7: for every base request with a first argument, if that argument does
not decode as an integer then building a `Get`, `Pull` or `Prepare` request
fails with exactly the decode error — which is a `NumError`, distinct from the
"incorrect command" arity error — and if it does decode, the typed field `n`
equals the decoded integer. -/
theorem c7_integer_decode (req : Request) (a0 : String) (rest : List String)
    (hargs : req.args = a0 :: rest) :
    (∀ e, atoi a0 = .error e →
        e ≠ Err.incorrectCmd
      ∧ (req.cmd = CmdGet → NewGetRequest req = .error e)
      ∧ (req.cmd = CmdPull → NewPullRequest req = .error e)
      ∧ (req.cmd = CmdPrepare → NewPrepareRequest req = .error e))
  ∧ (∀ n, atoi a0 = .ok n →
      (req.cmd = CmdGet → NewGetRequest req = .ok ⟨req, n⟩)
    ∧ (req.cmd = CmdPull → NewPullRequest req = .ok ⟨req, n⟩)
    ∧ (req.cmd = CmdPrepare → NewPrepareRequest req = .ok ⟨req, n⟩)) := by
  constructor
  · intro e he
    obtain ⟨k, rfl⟩ := atoi_error_shape a0 e he
    refine ⟨by simp, fun hcmd => ?_, fun hcmd => ?_, fun hcmd => ?_⟩
    · simp [NewGetRequest, hcmd, hargs, he]
    · simp [NewPullRequest, hcmd, hargs, he]
    · simp [NewPrepareRequest, hcmd, hargs, he]
  · intro n hn
    refine ⟨fun hcmd => ?_, fun hcmd => ?_, fun hcmd => ?_⟩
    · simp [NewGetRequest, hcmd, hargs, hn]
    · simp [NewPullRequest, hcmd, hargs, hn]
    · simp [NewPrepareRequest, hcmd, hargs, hn]

/-- Witness for C7 at the concrete request `⟨get, ["z"]⟩`: `"z"` does not
decode as an integer, and the builder fails with the `NumError` decode error
for `"z"`, not with the "incorrect command" error. -/
theorem c7_integer_decode_witness :
    NewGetRequest ⟨"get", ["z"]⟩ = .error (.numError "z" .invalid) :=
  ((c7_integer_decode ⟨"get", ["z"]⟩ "z" [] (by decide)).1
    (.numError "z" .invalid) (by decide)).2.1 (by decide)

/-- C8, counterexample: dispatching the status message `"status extra"`, which
carries an argument, does not fail with the "incorrect command" arity error —
it invokes the `Status` operation. -/
theorem c8_status_arity_counterexample :
    ProcessTr (fun _ => .ok ()) "status extra" = (.ok (), [Op.status])
  ∧ ProcessTr (fun _ => .ok ()) "status extra" ≠
      (.error .incorrectCmd, []) := by
  refine ⟨by decide, by decide⟩

/-- C8, amended: the dispatcher performs no arity validation for the status
command — every successfully parsed status message, whatever arguments it
carries, invokes the `Status` operation (and only it), returning the
collaborator's result. -/
theorem c8_status_ignores_args (handler : Op → Except Err Unit) (msg : String)
    (req : Request) (hreq : parseRawMessage msg = .ok req)
    (hcmd : req.cmd = CmdStatus) :
    ProcessTr handler msg = (handler Op.status, [Op.status]) := by
  rw [processTr_after_parse handler msg req hreq,
    show buildOp req = .ok Op.status from by
      simp [buildOp, hcmd, CmdPush, CmdGet, CmdPull, CmdStatus]]

/-- Witness for C8's amended theorem at the concrete message `"status a b"`:
the `Status` operation is invoked despite the two arguments. -/
theorem c8_status_ignores_args_witness :
    ProcessTr (fun _ => .ok ()) "status a b" = (.ok (), [Op.status]) :=
  c8_status_ignores_args (fun _ => .ok ()) "status a b" ⟨"status", ["a", "b"]⟩
    (by decide) (by decide)

/-- C9: every request the parser produces has at least one argument, so the
empty-argument arity branches of the builders are unreachable from `Process`:
the bare line `"push"` invokes `Push` with `v` the empty string, and the bare
lines `"get"`, `"pull"` and `"prepare"` fail with the integer-decode error on
the empty string — never with the "incorrect command" arity error. -/
theorem c9_args_never_empty :
    (∀ msg req, parseRawMessage msg = .ok req → 1 ≤ req.args.length)
  ∧ (∀ handler, ProcessTr handler "push" =
      (handler (Op.push ⟨⟨"push", [""]⟩, ""⟩), [Op.push ⟨⟨"push", [""]⟩, ""⟩]))
  ∧ (∀ handler, ProcessTr handler "get" =
      (.error (.numError "" .invalid), []))
  ∧ (∀ handler, ProcessTr handler "pull" =
      (.error (.numError "" .invalid), []))
  ∧ (∀ handler, ProcessTr handler "prepare" =
      (.error (.numError "" .invalid), [])) := by
  refine ⟨fun msg req h => (parseRawMessage_ok msg req h).2,
    fun handler => ?_, fun handler => ?_, fun handler => ?_,
    fun handler => ?_⟩
  · rw [processTr_after_parse handler "push" ⟨"push", [""]⟩ (by decide),
      show buildOp ⟨"push", [""]⟩ = .ok (Op.push ⟨⟨"push", [""]⟩, ""⟩) from by
        decide]
  · rw [processTr_after_parse handler "get" ⟨"get", [""]⟩ (by decide),
      show buildOp ⟨"get", [""]⟩ = .error (.numError "" .invalid) from by
        decide]
  · rw [processTr_after_parse handler "pull" ⟨"pull", [""]⟩ (by decide),
      show buildOp ⟨"pull", [""]⟩ = .error (.numError "" .invalid) from by
        decide]
  · rw [processTr_after_parse handler "prepare" ⟨"prepare", [""]⟩ (by decide),
      show buildOp ⟨"prepare", [""]⟩ = .error (.numError "" .invalid) from by
        decide]

/-- Witness for C9 at the concrete message `"status"`: the parsed request has
at least one argument. -/
theorem c9_args_never_empty_witness :
    1 ≤ (Request.mk "status" [""]).args.length :=
  c9_args_never_empty.1 "status" ⟨"status", [""]⟩ (by decide)

/-- C10: argument splitting happens at every single space character, not at
runs of whitespace: a remainder consisting of two space-free tokens separated
by `k ≥ 1` spaces splits into the first token, `k - 1` empty-string arguments,
and the second token; in particular `"accept 1  2 3"` parses to the four
arguments `["1", "", "2", "3"]` and is therefore rejected by the exactly-3
arity check of the `Accept` builder. -/
theorem c10_single_space_split :
    (∀ (t1 t2 : List Char) (k : Nat), (∀ c ∈ t1, c ≠ ' ') →
      (∀ c ∈ t2, c ≠ ' ') → 1 ≤ k →
      goSplit (String.mk (t1 ++ List.replicate k ' ' ++ t2)) =
        String.mk t1 :: (List.replicate (k - 1) "" ++ [String.mk t2]))
  ∧ parseRawMessage "accept 1  2 3" = .ok ⟨"accept", ["1", "", "2", "3"]⟩
  ∧ (∀ handler, ProcessTr handler "accept 1  2 3" =
      (.error .incorrectCmd, [])) := by
  refine ⟨fun t1 t2 k h1 h2 hk => ?_, by decide, fun handler => ?_⟩
  · rw [goSplit, show (String.mk (t1 ++ List.replicate k ' ' ++ t2)).data =
      t1 ++ List.replicate k ' ' ++ t2 from rfl,
      splitChars_token_spaces_token t1 t2 k h1 h2 hk]
    simp [List.map_replicate]
  · rw [processTr_after_parse handler "accept 1  2 3"
      ⟨"accept", ["1", "", "2", "3"]⟩ (by decide),
      show buildOp ⟨"accept", ["1", "", "2", "3"]⟩ = .error .incorrectCmd
        from by decide]

/-- Witness for C10 at the concrete tokens `1` and `2` separated by two
spaces: the split yields one empty-string argument between them. -/
theorem c10_single_space_split_witness :
    goSplit (String.mk (['1'] ++ List.replicate 2 ' ' ++ ['2'])) =
      "1" :: (List.replicate 1 "" ++ ["2"]) :=
  c10_single_space_split.1 ['1'] ['2'] 2 (by decide) (by decide) (by decide)

end StreamHandler
